import Mathlib

/-!
# Verification of the EvolutionThesis visualization pipeline

Shallow embedding of the core algorithms of the repository:

* `collate_pages.py`: `add_border`, `add_border_c`, `arrange_pages_horizontal`
  (the page-grid collator, "TileCanvas" in the spec) and
  `determine_ideal_shape` (the "GridShapeSelector").
* `create_figure.py`: `transfer_stats_between_wc` (the
  "LayoutContinuityTransfer") and `scale_wordcloud` (the "LayoutScaler").

Images are modelled as a dimension triple together with a total pixel
function; the `uint8` canvas stores values modulo 256.  Word-cloud layout
entries are modelled as a structure over an arbitrary numeric payload type
`F` (the Python code is duck-typed in the payload); font-size scaling is
modelled over `ℝ`, with `np.log10` rendered as `Real.logb 10`.
Python dict comprehensions (last occurrence of a key wins) are modelled as
association lists that are reversed before a first-match `List.lookup`.
The in-place mutation performed by the word-cloud operations is modelled
separately on a heap of layouts addressed by position.
-/

namespace EvolutionThesis

/-! ## Grid shape selection (`determine_ideal_shape`, collate_pages.py) -/

/-- `A4_page_size = (210, 297)`: width and height of an A4 page in mm. -/
def A4_page_size : ℕ × ℕ := (210, 297)

/-- `available_size_image = (780, 668)`: available canvas budget in px. -/
def available_size_image : ℕ × ℕ := (780, 668)

/-- `num_a4_on_rows = math.floor(780 / 210) = 3`. -/
def num_a4_on_rows : ℕ := available_size_image.1 / A4_page_size.1

/-- `num_a4_on_cols = math.floor(668 / 297) = 2`. -/
def num_a4_on_cols : ℕ := available_size_image.2 / A4_page_size.2

/-- Capacity of the shape reached by adders `(ar, ac)`:
`(num_a4_on_rows + ar) * (num_a4_on_cols + ac)`. -/
def adder_capacity (p : ℕ × ℕ) : ℕ :=
  (num_a4_on_rows + p.1) * (num_a4_on_cols + p.2)

/-- The `for i in range(100)` loop of `determine_ideal_shape`: on even
steps `adder_r += 1`, on odd steps `adder_c += 1`, then `break` as soon as
`(num_a4_on_rows + adder_r) * (num_a4_on_cols + adder_c) >= size`.
The first argument is the remaining fuel (initially 100), the second the
loop index `i`; returns the final `(adder_r, adder_c)`. -/
def shape_loop (size : ℕ) : ℕ → ℕ → ℕ → ℕ → ℕ × ℕ
  | 0, _, adder_r, adder_c => (adder_r, adder_c)
  | fuel + 1, i, adder_r, adder_c =>
    let adder_r' := if i % 2 = 0 then adder_r + 1 else adder_r
    let adder_c' := if i % 2 = 0 then adder_c else adder_c + 1
    if size ≤ (num_a4_on_rows + adder_r') * (num_a4_on_cols + adder_c') then
      (adder_r', adder_c')
    else
      shape_loop size fuel (i + 1) adder_r' adder_c'

/-- `determine_ideal_shape` of collate_pages.py, as a function of the number
of page images `size = len(list_of_images)`.  Returns
`(number_rows, number_cols)`. -/
def determine_ideal_shape (size : ℕ) : ℕ × ℕ :=
  let p := shape_loop size 100 0 0 0
  (num_a4_on_rows + p.1, num_a4_on_cols + p.2)

/-- The pair of adders obtained by running `m` increments of the
alternating growth loop starting at loop index `i`, without any capacity
check.  Used to describe the trajectory of `shape_loop`. -/
def exhaust_state : ℕ → ℕ → ℕ → ℕ → ℕ × ℕ
  | 0, _, adder_r, adder_c => (adder_r, adder_c)
  | m + 1, i, adder_r, adder_c =>
    exhaust_state m (i + 1)
      (if i % 2 = 0 then adder_r + 1 else adder_r)
      (if i % 2 = 0 then adder_c else adder_c + 1)

/-! ## Images and the page-grid collator (collate_pages.py) -/

/-- A raster image: `numpy` array of shape `(h, w, d)`.  The pixel function
is total; values outside the bounds are irrelevant junk. -/
structure Img where
  h : ℕ
  w : ℕ
  d : ℕ
  px : ℕ → ℕ → ℕ → ℤ

/-- `np.full((hh, ww, dd), color)`: the color tuple is broadcast along the
last (channel) axis. -/
def np_full (hh ww dd : ℕ) (color : ℕ → ℤ) : Img :=
  ⟨hh, ww, dd, fun _ _ ch => color ch⟩

/-- `add_border(image, width=1)` of collate_pages.py: a zero-filled array
two border-widths larger on each axis, with the original image written
into the center region. -/
def add_border (image : Img) (width : ℕ) : Img where
  h := image.h + width * 2
  w := image.w + width * 2
  d := image.d
  px r c ch :=
    if width ≤ r ∧ r < image.h + width ∧ width ≤ c ∧ c < image.w + width then
      image.px (r - width) (c - width) ch
    else 0

/-- `add_border_c(image, border_width=1, color=(0,0,0))` of
collate_pages.py: like `add_border` but the surrounding frame carries
`color` (channel-indexed) instead of zero. -/
def add_border_c (image : Img) (border_width : ℕ) (color : ℕ → ℤ) : Img where
  h := image.h + border_width * 2
  w := image.w + border_width * 2
  d := image.d
  px r c ch :=
    if border_width ≤ r ∧ r < image.h + border_width ∧
        border_width ≤ c ∧ c < image.w + border_width then
      image.px (r - border_width) (c - border_width) ch
    else color ch

/-- Assignment of a bordered page into the slice
`canvas[r0 : r0 + hh, c0 : c0 + ww, :]`.  The canvas is `uint8`, so the
stored value is taken modulo 256. -/
def write_block (canvas : Img) (r0 c0 hh ww : ℕ) (src : Img) : Img :=
  { canvas with
    px := fun r c ch =>
      if r0 ≤ r ∧ r < r0 + hh ∧ c0 ≤ c ∧ c < c0 + ww then
        src.px (r - r0) (c - c0) ch % 256
      else canvas.px r c ch }

/-- `arrange_pages_horizontal(pages, num_rows, num_cols, background_color)`
of collate_pages.py.  Pages are modelled as already-loaded images (the
source stores paths and calls `imageio.imread`; loading is composed away).
The bordered size of `pages[0]` fixes the cell size; the page list is
padded with `None` up to `num_rows * num_cols`, reshaped row-major, and
each cell is written into the `uint8` canvas in turn, real pages wrapped
by `add_border_c(..., color=(0,0,0))` and missing ones replaced by an
`np.full` block of the background color.  (On an empty page list the
source raises `IndexError` at `pages[0]`; the `headD` junk default below
is never reached by any theorem, which all assume a non-empty list.) -/
def arrange_pages_horizontal (pages : List Img) (num_rows num_cols : ℕ)
    (background_color : ℕ → ℤ) : Img :=
  let test_page := pages.headD (np_full 0 0 0 fun _ => 0)
  let t_bpage := add_border test_page 1
  let t_bpage_h := t_bpage.h
  let t_bpage_w := t_bpage.w
  let padded : List (Option Img) :=
    pages.map some ++ List.replicate (num_rows * num_cols - pages.length) none
  let canvas0 : Img := ⟨num_rows * t_bpage_h, num_cols * t_bpage_w, 3, fun _ _ _ => 0⟩
  (List.range (num_rows * num_cols)).foldl
    (fun canvas k =>
      let i := k / num_cols
      let j := k % num_cols
      let bpage : Img :=
        match padded.getD k none with
        | some page => add_border_c page 1 fun _ => 0
        | none => np_full t_bpage_h t_bpage_w 3 background_color
      write_block canvas (i * t_bpage_h) (j * t_bpage_w) t_bpage_h t_bpage_w bpage)
    canvas0

/-! ## Word-cloud layouts (create_figure.py) -/

/-- One entry of `WordCloud.layout_`:
`((word, unk), font_size, position, orientation, color)`.  The payload
type `F` is abstract (the Python code is duck-typed in these fields);
positions are pairs. -/
structure WCEntry (F : Type) where
  word : String
  unk : F
  fontSize : F
  pos : F × F
  orient : F
  col : F
  deriving Repr, DecidableEq

/-- A dict comprehension `{i[0][0]: proj(i) for i in cloud.layout_}`:
later entries overwrite earlier ones, so lookup is first-match on the
reversed association list. -/
def wc_dict {F β : Type} (proj : WCEntry F → β) (cloud : List (WCEntry F)) :
    List (String × β) :=
  (cloud.map fun e => (e.word, proj e)).reverse

/-- Python `dict.get(word, default)`. -/
def dict_get {β : Type} (d : List (String × β)) (w : String) (default : β) : β :=
  (d.lookup w).getD default

/-- The body of the `for i, item in enumerate(target_cloud.layout_)` loop
of `transfer_stats_between_wc`: the replacement entry computed for `item`
from the reference dictionaries and the five transfer flags. -/
def transfer_entry {F : Type} [Zero F] (reference_cloud : List (WCEntry F))
    (transfer_fontsize transfer_pos transfer_orientation transfer_color
      transfer_unk : Bool) (item : WCEntry F) : WCEntry F where
  word := item.word
  fontSize :=
    if transfer_fontsize then dict_get (wc_dict (fun e => e.fontSize) reference_cloud) item.word 0
    else item.fontSize
  unk :=
    if transfer_unk then dict_get (wc_dict (fun e => e.unk) reference_cloud) item.word 0
    else item.unk
  pos :=
    if transfer_pos then dict_get (wc_dict (fun e => e.pos) reference_cloud) item.word (0, 0)
    else item.pos
  orient :=
    if transfer_orientation then dict_get (wc_dict (fun e => e.orient) reference_cloud) item.word 0
    else item.orient
  col :=
    if transfer_color then dict_get (wc_dict (fun e => e.col) reference_cloud) item.word 0
    else item.col

/-- `transfer_stats_between_wc` of create_figure.py, value-level view: the
loop replaces `target_cloud.layout_[i]` by the entry computed from
`layout_[i]` alone, so the resulting layout is the entry-wise map.  (The
in-place character of the loop is modelled by `transfer_heap` below.) -/
def transfer_stats_between_wc {F : Type} [Zero F]
    (reference_cloud target_cloud : List (WCEntry F))
    (transfer_fontsize transfer_pos transfer_orientation transfer_color
      transfer_unk : Bool) : List (WCEntry F) :=
  target_cloud.map
    (transfer_entry reference_cloud transfer_fontsize transfer_pos
      transfer_orientation transfer_color transfer_unk)

/-- The exceptions that can escape `scale_wordcloud`: the `assert False`
of the `"logistic"` branch, the unbound `scaled_fs` for an unrecognized
`scale_type`, and Python integer division by zero in `"linear"` mode. -/
inductive ScaleError where
  | assertionError
  | nameError
  | zeroDivisionError
  deriving Repr, DecidableEq

/-- The `scaled_fs` computation of `scale_wordcloud` for one entry.
`"linear"`: `ref_fs * target_wordcount / reference_wordcount` (Python int
division raises `ZeroDivisionError` when the reference count is 0).
`"log"`: `ref_fs * np.log10(target_wordcount) / np.log10(reference_wordcount)`,
modelled over `ℝ` with `Real.logb 10`; `np.float64` arithmetic never
raises.  `"logistic"`: `assert False`.  Anything else leaves `scaled_fs`
unbound (`NameError`). -/
noncomputable def compute_scaled_fs (scale_type : String) (ref_fs : ℝ)
    (target_wordcount reference_wordcount : ℕ) : Except ScaleError ℝ :=
  if scale_type = "log" then
    .ok (ref_fs * Real.logb 10 target_wordcount / Real.logb 10 reference_wordcount)
  else if scale_type = "linear" then
    if reference_wordcount = 0 then .error .zeroDivisionError
    else .ok (ref_fs * target_wordcount / reference_wordcount)
  else if scale_type = "logistic" then .error .assertionError
  else .error .nameError

/-- The font-size loop of `scale_wordcloud`, entry by entry over the
already-transferred target layout; the first exception aborts. -/
noncomputable def scale_entries (ref_cloud_fs : List (String × ℝ))
    (target_wordcount reference_wordcount : ℕ) (scale_type : String) :
    List (WCEntry ℝ) → Except ScaleError (List (WCEntry ℝ))
  | [] => .ok []
  | item :: rest =>
    match compute_scaled_fs scale_type (dict_get ref_cloud_fs item.word 1)
        target_wordcount reference_wordcount with
    | .error e => .error e
    | .ok fs =>
      match scale_entries ref_cloud_fs target_wordcount reference_wordcount
          scale_type rest with
      | .error e => .error e
      | .ok tail => .ok ({ item with fontSize := fs } :: tail)

/-- `scale_wordcloud` of create_figure.py: first
`transfer_stats_between_wc` with `transfer_pos`, `transfer_orientation`,
`transfer_unk`, `transfer_color` set (font size kept), then each font size
is replaced by `ref_cloud_fs.get(word, 1)` scaled according to
`scale_type`. -/
noncomputable def scale_wordcloud (target_cloud reference_cloud : List (WCEntry ℝ))
    (target_wordcount reference_wordcount : ℕ) (scale_type : String) :
    Except ScaleError (List (WCEntry ℝ)) :=
  let target' := transfer_stats_between_wc reference_cloud target_cloud
    false true true true true
  scale_entries (wc_dict (fun e => e.fontSize) reference_cloud)
    target_wordcount reference_wordcount scale_type target'

/-- The layout produced by `scale_wordcloud` in `"log"` mode (which never
raises): the transferred layout with each font size replaced by
`ref_cloud_fs.get(word, 1) * log10(target_wordcount) / log10(reference_wordcount)`. -/
noncomputable def scale_log_list (target_cloud reference_cloud : List (WCEntry ℝ))
    (target_wordcount reference_wordcount : ℕ) : List (WCEntry ℝ) :=
  (transfer_stats_between_wc reference_cloud target_cloud false true true true true).map
    fun e =>
      { e with
        fontSize := dict_get (wc_dict (fun e' => e'.fontSize) reference_cloud) e.word 1 *
          Real.logb 10 target_wordcount / Real.logb 10 reference_wordcount }

/-- The value the spec assigns to a flagged attribute: the reference's
value for the word when the word occurs in the reference layout (the
layouts of the data model carry one entry per word), and a default
otherwise.  Stated with `List.find?`, independently of the dictionary
encoding used by the implementation. -/
def ref_lookup {F β : Type} (reference_cloud : List (WCEntry F))
    (proj : WCEntry F → β) (w : String) (default : β) : β :=
  match reference_cloud.find? (fun e => e.word == w) with
  | some e => proj e
  | none => default

/-! ## Heap model of the in-place mutation

`transfer_stats_between_wc` and `scale_wordcloud` mutate
`target_cloud.layout_` in place (`target_cloud.layout_[i] = newitem`) and
return the very object they were handed.  To express this, layouts live on
a heap addressed by position; the operations receive addresses, write one
entry index at a time in ascending order through the heap, and return the
address of their result. -/

/-- A heap of word-cloud layouts; an address is a position in the list. -/
def WCHeap (F : Type) : Type := List (List (WCEntry F))

/-- The `for i, item in enumerate(target_cloud.layout_)` loop acting on
the heap: iteration `i` reads entry `i` of the layout at `tgtA` and
writes its replacement back at index `i`.  Fuel starts at the layout's
length (index assignment never changes the length, so the iterator range
is fixed at entry). -/
def transfer_heap_loop {F : Type} (upd : WCEntry F → WCEntry F) (tgtA : ℕ) :
    ℕ → ℕ → WCHeap F → WCHeap F
  | 0, _, h => h
  | fuel + 1, i, h =>
    let cur := h.getD tgtA []
    match cur[i]? with
    | none => h
    | some item =>
      transfer_heap_loop upd tgtA fuel (i + 1) (h.set tgtA (cur.set i (upd item)))

/-- `transfer_stats_between_wc` on the heap: builds the reference
dictionaries from the layout at `refA`, then runs the in-place loop over
the layout at `tgtA`, and returns the updated heap together with the
address of the returned object (which is `tgtA` itself: the function
returns `target_cloud`). -/
def transfer_heap {F : Type} [Zero F] (h : WCHeap F) (refA tgtA : ℕ)
    (transfer_fontsize transfer_pos transfer_orientation transfer_color
      transfer_unk : Bool) : WCHeap F × ℕ :=
  let upd := transfer_entry (h.getD refA []) transfer_fontsize transfer_pos
    transfer_orientation transfer_color transfer_unk
  (transfer_heap_loop upd tgtA (h.getD tgtA []).length 0 h, tgtA)

/-- The font-size loop of `scale_wordcloud` on the heap, again one index
at a time in ascending order; an exception aborts mid-loop. -/
noncomputable def scale_heap_loop (ref_cloud_fs : List (String × ℝ))
    (target_wordcount reference_wordcount : ℕ) (scale_type : String) (tgtA : ℕ) :
    ℕ → ℕ → WCHeap ℝ → Except ScaleError (WCHeap ℝ)
  | 0, _, h => .ok h
  | fuel + 1, i, h =>
    let cur := h.getD tgtA []
    match cur[i]? with
    | none => .ok h
    | some item =>
      match compute_scaled_fs scale_type (dict_get ref_cloud_fs item.word 1)
          target_wordcount reference_wordcount with
      | .error e => .error e
      | .ok fs =>
        scale_heap_loop ref_cloud_fs target_wordcount reference_wordcount
          scale_type tgtA fuel (i + 1)
          (h.set tgtA (cur.set i { item with fontSize := fs }))

/-- `scale_wordcloud` on the heap: the transfer step mutates the layout at
`tgtA` in place, then `ref_cloud_fs` is built from the layout at `refA`
*after* that step (visible when the two addresses alias), and the
font-size loop runs in place; the address of the returned object is
`tgtA`. -/
noncomputable def scale_heap (h : WCHeap ℝ) (tgtA refA : ℕ)
    (target_wordcount reference_wordcount : ℕ) (scale_type : String) :
    Except ScaleError (WCHeap ℝ × ℕ) :=
  let h1 := (transfer_heap h refA tgtA false true true true true).1
  let ref_cloud_fs := wc_dict (fun e => e.fontSize) (h1.getD refA [])
  match scale_heap_loop ref_cloud_fs target_wordcount reference_wordcount
      scale_type tgtA (h1.getD tgtA []).length 0 h1 with
  | .error e => .error e
  | .ok h2 => .ok (h2, tgtA)

/-! ## Lemmas about the grid-shape loop -/

theorem shape_loop_sufficient (size : ℕ) :
    ∀ (fuel i adder_r adder_c : ℕ),
      size ≤ adder_capacity (exhaust_state fuel i adder_r adder_c) →
      size ≤ adder_capacity (shape_loop size fuel i adder_r adder_c) := by
  intro fuel
  induction fuel with
  | zero =>
    intro i ar ac h
    simpa [exhaust_state, shape_loop] using h
  | succ fuel ih =>
    intro i ar ac h
    rw [exhaust_state] at h
    simp only [shape_loop]
    by_cases hpar : i % 2 = 0 <;>
      simp only [hpar, ite_true, ite_false, if_true, if_false] at h ⊢ <;>
      [skip; skip] <;>
      (first
        | (split
           · next hcap => simpa [adder_capacity] using hcap
           · exact ih (i + 1) _ _ h))

theorem exhaust_capacity_ge_start :
    ∀ (m i adder_r adder_c : ℕ),
      adder_capacity (adder_r, adder_c) ≤
        adder_capacity (exhaust_state m i adder_r adder_c) := by
  intro m
  induction m with
  | zero =>
    intro i ar ac
    simp [exhaust_state]
  | succ m ih =>
    intro i ar ac
    rw [exhaust_state]
    by_cases hpar : i % 2 = 0 <;>
      simp only [hpar, ite_true, ite_false, if_true, if_false] <;>
      refine le_trans ?_ (ih (i + 1) _ _) <;>
      simp only [adder_capacity] <;>
      exact Nat.mul_le_mul (by omega) (by omega)

theorem shape_loop_no_break (size : ℕ) :
    ∀ (fuel i adder_r adder_c : ℕ),
      adder_capacity (exhaust_state fuel i adder_r adder_c) < size →
      shape_loop size fuel i adder_r adder_c = exhaust_state fuel i adder_r adder_c := by
  intro fuel
  induction fuel with
  | zero =>
    intro i ar ac _
    simp [exhaust_state, shape_loop]
  | succ fuel ih =>
    intro i ar ac h
    rw [exhaust_state] at h ⊢
    simp only [shape_loop]
    by_cases hpar : i % 2 = 0 <;>
      simp only [hpar, ite_true, ite_false, if_true, if_false] at h ⊢
    · rw [if_neg ?_]
      · exact ih (i + 1) _ _ h
      · have hge := exhaust_capacity_ge_start fuel (i + 1) (ar + 1) ac
        simp only [adder_capacity] at hge h
        omega
    · rw [if_neg ?_]
      · exact ih (i + 1) _ _ h
      · have hge := exhaust_capacity_ge_start fuel (i + 1) ar (ac + 1)
        simp only [adder_capacity] at hge h
        omega

theorem shape_loop_capacity_ge_start (size : ℕ) :
    ∀ (fuel i adder_r adder_c : ℕ),
      adder_capacity (adder_r, adder_c) ≤
        adder_capacity (shape_loop size fuel i adder_r adder_c) := by
  intro fuel
  induction fuel with
  | zero =>
    intro i ar ac
    simp [shape_loop]
  | succ fuel ih =>
    intro i ar ac
    simp only [shape_loop]
    by_cases hpar : i % 2 = 0 <;>
      simp only [hpar, ite_true, ite_false, if_true, if_false]
    · have hstep : adder_capacity (ar, ac) ≤ adder_capacity (ar + 1, ac) := by
        simp only [adder_capacity]
        exact Nat.mul_le_mul (by omega) (by omega)
      split
      · exact hstep
      · exact le_trans hstep (ih (i + 1) _ _)
    · have hstep : adder_capacity (ar, ac) ≤ adder_capacity (ar, ac + 1) := by
        simp only [adder_capacity]
        exact Nat.mul_le_mul (by omega) (by omega)
      split
      · exact hstep
      · exact le_trans hstep (ih (i + 1) _ _)

theorem shape_loop_capacity_mono (s s' : ℕ) (hss : s ≤ s') :
    ∀ (fuel i adder_r adder_c : ℕ),
      adder_capacity (shape_loop s fuel i adder_r adder_c) ≤
        adder_capacity (shape_loop s' fuel i adder_r adder_c) := by
  intro fuel
  induction fuel with
  | zero =>
    intro i ar ac
    simp [shape_loop]
  | succ fuel ih =>
    intro i ar ac
    simp only [shape_loop]
    by_cases hpar : i % 2 = 0 <;>
      simp only [hpar, ite_true, ite_false, if_true, if_false]
    · by_cases hbig : s' ≤ (num_a4_on_rows + (ar + 1)) * (num_a4_on_cols + ac)
      · rw [if_pos hbig, if_pos (le_trans hss hbig)]
      · rw [if_neg hbig]
        by_cases hsmall : s ≤ (num_a4_on_rows + (ar + 1)) * (num_a4_on_cols + ac)
        · rw [if_pos hsmall]
          exact shape_loop_capacity_ge_start s' fuel (i + 1) _ _
        · rw [if_neg hsmall]
          exact ih (i + 1) _ _
    · by_cases hbig : s' ≤ (num_a4_on_rows + ar) * (num_a4_on_cols + (ac + 1))
      · rw [if_pos hbig, if_pos (le_trans hss hbig)]
      · rw [if_neg hbig]
        by_cases hsmall : s ≤ (num_a4_on_rows + ar) * (num_a4_on_cols + (ac + 1))
        · rw [if_pos hsmall]
          exact shape_loop_capacity_ge_start s' fuel (i + 1) _ _
        · rw [if_neg hsmall]
          exact ih (i + 1) _ _

theorem shape_loop_first_break (size : ℕ) :
    ∀ (k fuel i adder_r adder_c : ℕ), k < fuel →
      size ≤ adder_capacity (exhaust_state (k + 1) i adder_r adder_c) →
      (∀ m, m < k → adder_capacity (exhaust_state (m + 1) i adder_r adder_c) < size) →
      shape_loop size fuel i adder_r adder_c = exhaust_state (k + 1) i adder_r adder_c := by
  intro k
  induction k with
  | zero =>
    intro fuel i ar ac hk hcap _
    match fuel, hk with
    | fuel + 1, _ =>
      simp only [shape_loop]
      rw [exhaust_state, exhaust_state] at hcap ⊢
      simp only [adder_capacity] at hcap
      rw [if_pos hcap]
  | succ k ih =>
    intro fuel i ar ac hk hcap hmin
    match fuel, hk with
    | fuel + 1, hk =>
      simp only [shape_loop]
      have h0 := hmin 0 (Nat.succ_pos k)
      rw [exhaust_state, exhaust_state] at h0
      simp only [exhaust_state, adder_capacity] at h0
      rw [if_neg (by omega)]
      rw [exhaust_state] at hcap ⊢
      refine ih fuel (i + 1) _ _ (by omega) hcap ?_
      intro m hm
      have hmono := hmin (m + 1) (by omega)
      rw [exhaust_state] at hmono
      exact hmono

theorem exhaust_state_even_closed :
    ∀ (m i adder_r adder_c : ℕ), i % 2 = 0 →
      exhaust_state m i adder_r adder_c =
        (adder_r + (m + 1) / 2, adder_c + m / 2) := by
  intro m
  induction m using Nat.strong_induction_on with
  | _ m ih =>
    match m with
    | 0 =>
      intro i ar ac _
      simp [exhaust_state]
    | 1 =>
      intro i ar ac hpar
      simp [exhaust_state, hpar]
    | m + 2 =>
      intro i ar ac hpar
      have hpar1 : ¬ (i + 1) % 2 = 0 := by omega
      have hpar2 : (i + 2) % 2 = 0 := by omega
      rw [exhaust_state, exhaust_state]
      simp only [hpar, hpar1, ite_true, ite_false, if_true, if_false]
      rw [ih m (by omega) (i + 2) (ar + 1) (ac + 1) hpar2]
      have h1 : ar + 1 + (m + 1) / 2 = ar + (m + 2 + 1) / 2 := by omega
      have h2 : ac + 1 + m / 2 = ac + (m + 2) / 2 := by omega
      rw [h1, h2]

/-! ## Claims C4, C5, C6, C9: the grid-shape selector -/

/-- C4 (counterexample).  The claim "for every tileCount,
`selectShape(tileCount)` returns a (rows, cols) pair with
`rows*cols >= tileCount`" fails: at `tileCount = 3000` the loop exhausts
its 100 iterations and `determine_ideal_shape` returns `(53, 52)`, whose
capacity `2756` is smaller than `3000`. -/
theorem C4_capacity_counterexample :
    determine_ideal_shape 3000 = (53, 52) ∧
      (determine_ideal_shape 3000).1 * (determine_ideal_shape 3000).2 < 3000 := by
  constructor
  · decide
  · decide

/-- C4 (amended).  For every `tileCount ≤ 2756` — the largest capacity the
100-step growth loop can reach — `determine_ideal_shape` returns a shape
with `rows * cols ≥ tileCount`; beyond that bound the function returns the
insufficient final shape instead of guaranteeing capacity. -/
theorem C4_shape_capacity_in_bound (size : ℕ) (hsize : size ≤ 2756) :
    size ≤ (determine_ideal_shape size).1 * (determine_ideal_shape size).2 := by
  have h100 : adder_capacity (exhaust_state 100 0 0 0) = 2756 := by decide
  have h := shape_loop_sufficient size 100 0 0 0 (by omega)
  simpa [determine_ideal_shape, adder_capacity] using h

/-- Witness for C4 (amended) at `tileCount = 17`. -/
theorem C4_shape_capacity_in_bound_witness :
    17 ≤ (determine_ideal_shape 17).1 * (determine_ideal_shape 17).2 :=
  C4_shape_capacity_in_bound 17 (by decide)

/-- C5 (counterexample).  The claim "if `baseRows * baseCols >= tileCount`
then `selectShape(tileCount)` returns exactly `(baseRows, baseCols)`"
fails: the base shape is `(3, 2)` with capacity `6 ≥ 1`, yet
`determine_ideal_shape 1 = (4, 2)` — the loop increments before its first
capacity check. -/
theorem C5_base_shape_counterexample :
    determine_ideal_shape 1 = (4, 2) ∧
      determine_ideal_shape 1 ≠ (num_a4_on_rows, num_a4_on_cols) ∧
      1 ≤ num_a4_on_rows * num_a4_on_cols := by
  refine ⟨by decide, by decide, by decide⟩

/-- C5 (amended).  The capacity check happens only *after* an increment,
so the base shape `(3, 2)` itself is never returned even when sufficient.
The loop increments rows on even steps (starting with step 0) and cols on
odd steps, re-checks after each increment, and stops at the first
sufficient shape: if step `i < 100` is the first whose shape
`(4 + i/2, 2 + (i+1)/2)` has capacity `≥ tileCount`, that shape is
returned. -/
theorem C5_first_sufficient_shape (size i : ℕ) (hi : i < 100)
    (hcap : size ≤ (4 + i / 2) * (2 + (i + 1) / 2))
    (hmin : ∀ j, j < i → (4 + j / 2) * (2 + (j + 1) / 2) < size) :
    determine_ideal_shape size = (4 + i / 2, 2 + (i + 1) / 2) := by
  have hzero : (0 : ℕ) % 2 = 0 := by decide
  have hrows : num_a4_on_rows = 3 := by decide
  have hcols : num_a4_on_cols = 2 := by decide
  have hclosed : ∀ m : ℕ, exhaust_state (m + 1) 0 0 0 = ((m + 2) / 2, (m + 1) / 2) := by
    intro m
    rw [exhaust_state_even_closed (m + 1) 0 0 0 hzero]
    simp only [Prod.mk.injEq]
    omega
  have hcomp : ∀ m : ℕ, num_a4_on_rows + (m + 2) / 2 = 4 + m / 2 := by
    intro m
    omega
  have hcomp2 : ∀ m : ℕ, num_a4_on_cols + (m + 1) / 2 = 2 + (m + 1) / 2 := by
    intro m
    omega
  have hcap' : size ≤ adder_capacity (exhaust_state (i + 1) 0 0 0) := by
    rw [hclosed i]
    simp only [adder_capacity]
    rw [hcomp i, hcomp2 i]
    exact hcap
  have hmin' : ∀ m, m < i → adder_capacity (exhaust_state (m + 1) 0 0 0) < size := by
    intro m hm
    rw [hclosed m]
    simp only [adder_capacity]
    rw [hcomp m, hcomp2 m]
    exact hmin m hm
  have hloop := shape_loop_first_break size i 100 0 0 0 hi hcap' hmin'
  simp only [determine_ideal_shape, hloop, hclosed i]
  rw [hcomp i, hcomp2 i]

/-- Witness for C5 (amended): at `tileCount = 9` the first sufficient step
is `i = 1` (step 0 gives `(4, 2)` with capacity `8 < 9`, step 1 gives
`(4, 3)` with capacity `12 ≥ 9`), so the result is `(4, 3)`. -/
theorem C5_first_sufficient_shape_witness :
    determine_ideal_shape 9 = (4 + 1 / 2, 2 + (1 + 1) / 2) :=
  C5_first_sufficient_shape 9 1 (by decide) (by decide)
    (by intro j hj; interval_cases j; decide)

/-- C6 (counterexample).  The claim "for every tileCount for which 100
alternating growth steps do not reach a sufficient shape, selectShape
fails with GridShapeUnreachable rather than returning a shape" is false:
`tileCount = 2757` exceeds the reachable capacity 2756, yet
`determine_ideal_shape` raises nothing and returns the shape `(53, 52)`.
(The source contains no error path at all: the `for` loop simply
terminates and the final shape is returned.) -/
theorem C6_no_failure_counterexample :
    determine_ideal_shape 2757 = (53, 52) ∧
      (determine_ideal_shape 2757).1 * (determine_ideal_shape 2757).2 < 2757 := by
  refine ⟨by decide, by decide⟩

/-- C6 (amended).  When the 100 growth steps cannot reach the requested
capacity (`tileCount > 2756`), `determine_ideal_shape` does not fail; it
silently returns the final shape `(53, 52)` of the exhausted loop, whose
capacity is insufficient. -/
theorem C6_overflow_returns_final_shape (size : ℕ) (hsize : 2756 < size) :
    determine_ideal_shape size = (53, 52) ∧
      (determine_ideal_shape size).1 * (determine_ideal_shape size).2 < size := by
  have h100 : exhaust_state 100 0 0 0 = (50, 50) := by decide
  have hcap : adder_capacity (exhaust_state 100 0 0 0) = 2756 := by decide
  have hnb := shape_loop_no_break size 100 0 0 0 (by omega)
  rw [determine_ideal_shape, hnb, h100]
  refine ⟨by decide, by simpa using hsize⟩

/-- Witness for C6 (amended) at `tileCount = 5000`. -/
theorem C6_overflow_returns_final_shape_witness :
    determine_ideal_shape 5000 = (53, 52) ∧
      (determine_ideal_shape 5000).1 * (determine_ideal_shape 5000).2 < 5000 :=
  C6_overflow_returns_final_shape 5000 (by decide)

/-- C9 (confirmed).  The capacity of the selected grid shape is monotone
in the tile count: for `m ≤ n`,
`rows(m)*cols(m) ≤ rows(n)*cols(n)`.  (This holds for *all* tile counts,
including those beyond the 100-step bound, where both sides saturate at
the final shape.) -/
theorem C9_capacity_monotone (m n : ℕ) (hmn : m ≤ n) :
    (determine_ideal_shape m).1 * (determine_ideal_shape m).2 ≤
      (determine_ideal_shape n).1 * (determine_ideal_shape n).2 := by
  have h := shape_loop_capacity_mono m n hmn 100 0 0 0
  simpa [determine_ideal_shape, adder_capacity] using h

/-- Witness for C9 at `m = 2 ≤ n = 3`. -/
theorem C9_capacity_monotone_witness :
    (determine_ideal_shape 2).1 * (determine_ideal_shape 2).2 ≤
      (determine_ideal_shape 3).1 * (determine_ideal_shape 3).2 :=
  C9_capacity_monotone 2 3 (by decide)

/-! ## Lemmas about dictionary lookup -/

theorem lookup_map_entry {F β : Type} (proj : WCEntry F → β) (w : String) :
    ∀ l : List (WCEntry F),
      (l.map fun e => (e.word, proj e)).lookup w =
        (l.find? fun e => e.word == w).map proj := by
  intro l
  induction l with
  | nil => simp
  | cons e rest ih =>
    by_cases h : w = e.word
    · subst h
      simp [List.lookup, List.find?]
    · have h1 : (w == e.word) = false := by simpa using h
      have h2 : (e.word == w) = false := by
        simpa using (Ne.symm h)
      simp [List.lookup, List.find?, h1, h2, ih]

theorem lookup_eq_none_of_not_mem_keys {β : Type} (w : String) :
    ∀ l : List (String × β), w ∉ l.map Prod.fst → l.lookup w = none := by
  intro l
  induction l with
  | nil => simp
  | cons p rest ih =>
    intro hmem
    simp only [List.map_cons, List.mem_cons] at hmem
    push_neg at hmem
    have h1 : (w == p.1) = false := by simpa using hmem.1
    simp [List.lookup, h1, ih hmem.2]

theorem lookup_append {β : Type} (w : String) :
    ∀ l₁ l₂ : List (String × β),
      (l₁ ++ l₂).lookup w =
        match l₁.lookup w with
        | some v => some v
        | none => l₂.lookup w := by
  intro l₁ l₂
  induction l₁ with
  | nil => simp [List.lookup]
  | cons p rest ih =>
    by_cases h : w = p.1
    · subst h
      simp [List.lookup]
    · have h1 : (w == p.1) = false := by simpa using h
      simp [List.lookup, h1, ih]

theorem lookup_reverse_of_nodup {β : Type} (w : String) :
    ∀ l : List (String × β), (l.map Prod.fst).Nodup →
      l.reverse.lookup w = l.lookup w := by
  intro l
  induction l with
  | nil => simp
  | cons p rest ih =>
    intro hnd
    simp only [List.map_cons, List.nodup_cons] at hnd
    rw [List.reverse_cons, lookup_append]
    rw [ih hnd.2]
    by_cases h : w = p.1
    · have hnone : rest.lookup w = none :=
        lookup_eq_none_of_not_mem_keys w rest (by rw [h]; exact hnd.1)
      have h1 : (w == p.1) = true := by simpa using h
      simp [List.lookup, hnone, h1]
    · have h1 : (w == p.1) = false := by simpa using h
      cases hrest : rest.lookup w with
      | some v => simp [List.lookup, h1, hrest]
      | none => simp [List.lookup, h1, hrest]

/-- Under the one-entry-per-word invariant, the last-wins Python dict
lookup agrees with the specification-level first-match lookup. -/
theorem dict_get_eq_ref_lookup {F β : Type} (proj : WCEntry F → β)
    (reference_cloud : List (WCEntry F)) (w : String) (d : β)
    (hnd : (reference_cloud.map WCEntry.word).Nodup) :
    dict_get (wc_dict proj reference_cloud) w d = ref_lookup reference_cloud proj w d := by
  have hkeys : ((reference_cloud.map fun e => (e.word, proj e)).map Prod.fst).Nodup := by
    simpa [List.map_map, Function.comp] using hnd
  rw [dict_get, wc_dict, lookup_reverse_of_nodup w _ hkeys, lookup_map_entry]
  rw [ref_lookup]
  cases hfind : reference_cloud.find? fun e => e.word == w with
  | some e => simp [hfind]
  | none => simp [hfind]

/-- Under the one-entry-per-word invariant, `find?` at the word of a
member returns that member. -/
theorem find?_self_of_nodup {F : Type} (e : WCEntry F) :
    ∀ l : List (WCEntry F), (l.map WCEntry.word).Nodup → e ∈ l →
      (l.find? fun x => x.word == e.word) = some e := by
  intro l
  induction l with
  | nil => simp
  | cons x rest ih =>
    intro hnd hmem
    simp only [List.map_cons, List.nodup_cons] at hnd
    rcases List.mem_cons.mp hmem with he | he
    · subst he
      simp [List.find?]
    · have hne : (x.word == e.word) = false := by
        have : e.word ∈ rest.map WCEntry.word := List.mem_map_of_mem _ he
        have hxw : x.word ≠ e.word := fun hEq => hnd.1 (hEq ▸ this)
        simpa using hxw
      simp only [List.find?, hne]
      exact ih hnd.2 he

/-! ## Lemmas about the heap model -/

theorem heap_getD_set_self {F : Type} (h : WCHeap F) (a : ℕ)
    (x : List (WCEntry F)) (ha : a < h.length) :
    (h.set a x).getD a [] = x := by
  rw [List.getD_eq_getElem?_getD, List.getElem?_set_self ha]
  rfl

theorem heap_getD_set_ne {F : Type} (h : WCHeap F) (a b : ℕ)
    (x : List (WCEntry F)) (hab : a ≠ b) :
    (h.set a x).getD b [] = h.getD b [] := by
  rw [List.getD_eq_getElem?_getD, List.getElem?_set_ne hab,
    List.getD_eq_getElem?_getD]

theorem heap_set_getD_self {F : Type} (h : WCHeap F) (a : ℕ) (ha : a < h.length) :
    h.set a (h.getD a []) = h := by
  apply List.ext_getElem?
  intro j
  by_cases hj : a = j
  · subst hj
    rw [List.getElem?_set_self ha, List.getD_eq_getElem?_getD,
      List.getElem?_eq_getElem ha]
    rfl
  · rw [List.getElem?_set_ne hj]

theorem take_set_succ {α : Type} (l : List α) (i : ℕ) (v : α) (h : i < l.length) :
    (l.set i v).take (i + 1) = l.take i ++ [v] := by
  rw [List.set_eq_take_append_cons_drop]
  simp only [h, if_pos]
  rw [List.take_append_eq_append_take]
  have hlen : (l.take i).length = i := by simp [Nat.le_of_lt h]
  rw [List.take_of_length_le (by omega), hlen]
  simp

theorem transfer_heap_loop_eq {F : Type} (upd : WCEntry F → WCEntry F) (tgtA : ℕ) :
    ∀ (fuel i : ℕ) (h : WCHeap F), tgtA < h.length →
      i + fuel = (h.getD tgtA []).length →
      transfer_heap_loop upd tgtA fuel i h =
        h.set tgtA ((h.getD tgtA []).take i ++ ((h.getD tgtA []).drop i).map upd) := by
  intro fuel
  induction fuel with
  | zero =>
    intro i h htgt hlen
    rw [transfer_heap_loop]
    rw [List.take_of_length_le (by omega), List.drop_eq_nil_of_le (by omega)]
    rw [List.map_nil, List.append_nil, heap_set_getD_self h tgtA htgt]
  | succ fuel ih =>
    intro i h htgt hlen
    have hi : i < (h.getD tgtA []).length := by omega
    rw [transfer_heap_loop]
    simp only [List.getElem?_eq_getElem hi]
    have hlen2 : tgtA < (h.set tgtA ((h.getD tgtA []).set i
        (upd (h.getD tgtA [])[i]))).length := by
      simpa using htgt
    have hcur : (h.set tgtA ((h.getD tgtA []).set i
        (upd (h.getD tgtA [])[i]))).getD tgtA [] =
        (h.getD tgtA []).set i (upd (h.getD tgtA [])[i]) :=
      heap_getD_set_self h tgtA _ htgt
    rw [ih (i + 1) _ hlen2 (by rw [hcur, List.length_set]; omega)]
    rw [hcur, List.set_set]
    congr 1
    rw [take_set_succ _ i _ hi, List.drop_set_of_lt _ _ (by omega)]
    rw [List.drop_eq_getElem_cons hi]
    rw [List.map_cons, List.append_assoc, List.singleton_append]

theorem transfer_heap_eq {F : Type} [Zero F] (h : WCHeap F) (refA tgtA : ℕ)
    (tfs tpos tor tcol tunk : Bool) (htgt : tgtA < h.length) :
    transfer_heap h refA tgtA tfs tpos tor tcol tunk =
      (h.set tgtA (transfer_stats_between_wc (h.getD refA []) (h.getD tgtA [])
        tfs tpos tor tcol tunk), tgtA) := by
  rw [transfer_heap]
  rw [transfer_heap_loop_eq _ tgtA _ 0 h htgt (by simp)]
  rw [transfer_stats_between_wc]
  simp

theorem compute_scaled_fs_log (ref_fs : ℝ) (t r : ℕ) :
    compute_scaled_fs "log" ref_fs t r =
      .ok (ref_fs * Real.logb 10 t / Real.logb 10 r) := by
  rw [compute_scaled_fs, if_pos rfl]

theorem scale_heap_loop_log_eq (d : List (String × ℝ))
    (target_wordcount reference_wordcount : ℕ) (tgtA : ℕ) :
    ∀ (fuel i : ℕ) (h : WCHeap ℝ), tgtA < h.length →
      i + fuel = (h.getD tgtA []).length →
      scale_heap_loop d target_wordcount reference_wordcount "log" tgtA fuel i h =
        .ok (h.set tgtA ((h.getD tgtA []).take i ++ ((h.getD tgtA []).drop i).map
          fun item =>
            { item with
              fontSize := dict_get d item.word 1 * Real.logb 10 target_wordcount /
                Real.logb 10 reference_wordcount })) := by
  intro fuel
  induction fuel with
  | zero =>
    intro i h htgt hlen
    rw [scale_heap_loop]
    rw [List.take_of_length_le (by omega), List.drop_eq_nil_of_le (by omega)]
    rw [List.map_nil, List.append_nil, heap_set_getD_self h tgtA htgt]
  | succ fuel ih =>
    intro i h htgt hlen
    have hi : i < (h.getD tgtA []).length := by omega
    rw [scale_heap_loop]
    simp only [List.getElem?_eq_getElem hi, compute_scaled_fs_log]
    have hcur : ∀ x, (h.set tgtA ((h.getD tgtA []).set i x)).getD tgtA [] =
        (h.getD tgtA []).set i x := fun x => heap_getD_set_self h tgtA _ htgt
    rw [ih (i + 1) _ (by simpa using htgt) (by rw [hcur, List.length_set]; omega)]
    rw [hcur, List.set_set]
    congr 2
    rw [take_set_succ _ i _ hi, List.drop_set_of_lt _ _ (by omega)]
    rw [List.drop_eq_getElem_cons hi]
    rw [List.map_cons, List.append_assoc, List.singleton_append]

theorem scale_entries_log_eq (d : List (String × ℝ))
    (target_wordcount reference_wordcount : ℕ) :
    ∀ l : List (WCEntry ℝ),
      scale_entries d target_wordcount reference_wordcount "log" l =
        .ok (l.map fun item =>
          { item with
            fontSize := dict_get d item.word 1 * Real.logb 10 target_wordcount /
              Real.logb 10 reference_wordcount }) := by
  intro l
  induction l with
  | nil => rw [scale_entries]; rfl
  | cons item rest ih =>
    rw [scale_entries]
    simp only [compute_scaled_fs_log, ih, List.map_cons]

/-- `scale_wordcloud` never raises in `"log"` mode and computes
`scale_log_list`. -/
theorem scale_wordcloud_log_eq (target_cloud reference_cloud : List (WCEntry ℝ))
    (target_wordcount reference_wordcount : ℕ) :
    scale_wordcloud target_cloud reference_cloud target_wordcount
        reference_wordcount "log" =
      .ok (scale_log_list target_cloud reference_cloud target_wordcount
        reference_wordcount) := by
  rw [scale_wordcloud, scale_log_list]
  rw [scale_entries_log_eq]

/-- The transfer step never changes a word. -/
theorem transfer_map_word {F : Type} [Zero F]
    (reference_cloud target_cloud : List (WCEntry F))
    (tfs tpos tor tcol tunk : Bool) :
    (transfer_stats_between_wc reference_cloud target_cloud
        tfs tpos tor tcol tunk).map WCEntry.word = target_cloud.map WCEntry.word := by
  simp [transfer_stats_between_wc, transfer_entry, List.map_map, Function.comp]

/-- With the font-size flag unset (as in `scale_wordcloud`), the transfer
step preserves every entry's `(word, fontSize)` pair. -/
theorem transfer_map_word_fs {F : Type} [Zero F]
    (reference_cloud target_cloud : List (WCEntry F))
    (tpos tor tcol tunk : Bool) :
    (transfer_stats_between_wc reference_cloud target_cloud
        false tpos tor tcol tunk).map (fun e => (e.word, e.fontSize)) =
      target_cloud.map fun e => (e.word, e.fontSize) := by
  simp [transfer_stats_between_wc, transfer_entry, List.map_map, Function.comp]

/-! ## Claims C1, C7: the continuity transfer -/

/-- C1 (confirmed).  For every reference layout (with the data model's
one-entry-per-word invariant), target layout and flag assignment, entry
`i` of the transferred layout keeps the target's word; each flagged
attribute receives the reference's value for that word when the word
occurs in the reference, and otherwise the default `0`
(fontSize/orientation/auxiliary/color) or `(0, 0)` (position); each
unflagged attribute keeps the target's own original value. -/
theorem C1_transfer_attribute_semantics {F : Type} [Zero F]
    (reference_cloud target_cloud : List (WCEntry F))
    (transfer_fontsize transfer_pos transfer_orientation transfer_color
      transfer_unk : Bool)
    (hnd : (reference_cloud.map WCEntry.word).Nodup)
    (i : ℕ) (hi : i < target_cloud.length) :
    (transfer_stats_between_wc reference_cloud target_cloud transfer_fontsize
        transfer_pos transfer_orientation transfer_color transfer_unk)[i]? =
      some
        { word := target_cloud[i].word
          fontSize :=
            if transfer_fontsize then
              ref_lookup reference_cloud (fun e => e.fontSize) target_cloud[i].word 0
            else target_cloud[i].fontSize
          unk :=
            if transfer_unk then
              ref_lookup reference_cloud (fun e => e.unk) target_cloud[i].word 0
            else target_cloud[i].unk
          pos :=
            if transfer_pos then
              ref_lookup reference_cloud (fun e => e.pos) target_cloud[i].word (0, 0)
            else target_cloud[i].pos
          orient :=
            if transfer_orientation then
              ref_lookup reference_cloud (fun e => e.orient) target_cloud[i].word 0
            else target_cloud[i].orient
          col :=
            if transfer_color then
              ref_lookup reference_cloud (fun e => e.col) target_cloud[i].word 0
            else target_cloud[i].col } := by
  rw [transfer_stats_between_wc, List.getElem?_map, List.getElem?_eq_getElem hi,
    Option.map_some']
  have hfs := dict_get_eq_ref_lookup (fun e : WCEntry F => e.fontSize)
    reference_cloud target_cloud[i].word (0 : F) hnd
  have hunk := dict_get_eq_ref_lookup (fun e : WCEntry F => e.unk)
    reference_cloud target_cloud[i].word (0 : F) hnd
  have hpos := dict_get_eq_ref_lookup (fun e : WCEntry F => e.pos)
    reference_cloud target_cloud[i].word ((0, 0) : F × F) hnd
  have hor := dict_get_eq_ref_lookup (fun e : WCEntry F => e.orient)
    reference_cloud target_cloud[i].word (0 : F) hnd
  have hcol := dict_get_eq_ref_lookup (fun e : WCEntry F => e.col)
    reference_cloud target_cloud[i].word (0 : F) hnd
  simp only [transfer_entry, hfs, hunk, hpos, hor, hcol]

/-- Witness for C1 over `F = ℤ`: reference `[("b", fontSize 10, pos
(1, 1))]`, target `[("a", fontSize 8, pos (9, 9))]`, position flag only;
"a" is absent from the reference so the position becomes the default
`(0, 0)` while the fontSize keeps the target's `8`. -/
theorem C1_transfer_attribute_semantics_witness :
    (transfer_stats_between_wc
        [⟨"b", (2 : ℤ), 10, (1, 1), 3, 4⟩] [⟨"a", (5 : ℤ), 8, (9, 9), 6, 7⟩]
        false true false false false)[0]? =
      some
        { word := ([⟨"a", (5 : ℤ), 8, (9, 9), 6, 7⟩] : List (WCEntry ℤ))[0].word
          fontSize :=
            if false then
              ref_lookup [⟨"b", (2 : ℤ), 10, (1, 1), 3, 4⟩] (fun e => e.fontSize)
                ([⟨"a", (5 : ℤ), 8, (9, 9), 6, 7⟩] : List (WCEntry ℤ))[0].word 0
            else ([⟨"a", (5 : ℤ), 8, (9, 9), 6, 7⟩] : List (WCEntry ℤ))[0].fontSize
          unk :=
            if false then
              ref_lookup [⟨"b", (2 : ℤ), 10, (1, 1), 3, 4⟩] (fun e => e.unk)
                ([⟨"a", (5 : ℤ), 8, (9, 9), 6, 7⟩] : List (WCEntry ℤ))[0].word 0
            else ([⟨"a", (5 : ℤ), 8, (9, 9), 6, 7⟩] : List (WCEntry ℤ))[0].unk
          pos :=
            if true then
              ref_lookup [⟨"b", (2 : ℤ), 10, (1, 1), 3, 4⟩] (fun e => e.pos)
                ([⟨"a", (5 : ℤ), 8, (9, 9), 6, 7⟩] : List (WCEntry ℤ))[0].word (0, 0)
            else ([⟨"a", (5 : ℤ), 8, (9, 9), 6, 7⟩] : List (WCEntry ℤ))[0].pos
          orient :=
            if false then
              ref_lookup [⟨"b", (2 : ℤ), 10, (1, 1), 3, 4⟩] (fun e => e.orient)
                ([⟨"a", (5 : ℤ), 8, (9, 9), 6, 7⟩] : List (WCEntry ℤ))[0].word 0
            else ([⟨"a", (5 : ℤ), 8, (9, 9), 6, 7⟩] : List (WCEntry ℤ))[0].orient
          col :=
            if false then
              ref_lookup [⟨"b", (2 : ℤ), 10, (1, 1), 3, 4⟩] (fun e => e.col)
                ([⟨"a", (5 : ℤ), 8, (9, 9), 6, 7⟩] : List (WCEntry ℤ))[0].word 0
            else ([⟨"a", (5 : ℤ), 8, (9, 9), 6, 7⟩] : List (WCEntry ℤ))[0].col } :=
  C1_transfer_attribute_semantics
    [⟨"b", (2 : ℤ), 10, (1, 1), 3, 4⟩] [⟨"a", (5 : ℤ), 8, (9, 9), 6, 7⟩]
    false true false false false (by decide) 0 (by decide)

/-- C7 (confirmed).  The transferred layout has exactly the target's
words in the target's order (hence the same entry count, and no word that
occurs only in the reference is injected); and on the heap, the transfer
call leaves the reference layout at its own address unchanged. -/
theorem C7_transfer_preserves_structure {F : Type} [Zero F]
    (reference_cloud target_cloud : List (WCEntry F))
    (transfer_fontsize transfer_pos transfer_orientation transfer_color
      transfer_unk : Bool)
    (h : WCHeap F) (refA tgtA : ℕ) (hne : refA ≠ tgtA) (htgt : tgtA < h.length) :
    (transfer_stats_between_wc reference_cloud target_cloud transfer_fontsize
        transfer_pos transfer_orientation transfer_color transfer_unk).map
        WCEntry.word = target_cloud.map WCEntry.word ∧
    (transfer_stats_between_wc reference_cloud target_cloud transfer_fontsize
        transfer_pos transfer_orientation transfer_color transfer_unk).length =
        target_cloud.length ∧
    (transfer_heap h refA tgtA transfer_fontsize transfer_pos
        transfer_orientation transfer_color transfer_unk).1.getD refA [] =
        h.getD refA [] := by
  refine ⟨transfer_map_word reference_cloud target_cloud _ _ _ _ _, ?_, ?_⟩
  · rw [transfer_stats_between_wc, List.length_map]
  · rw [transfer_heap_eq h refA tgtA _ _ _ _ _ htgt]
    exact heap_getD_set_ne h tgtA refA _ fun hEq => hne hEq.symm

/-- Witness for C7 over `F = ℤ`, with the reference at heap address 0 and
the target at address 1. -/
theorem C7_transfer_preserves_structure_witness :
    (transfer_stats_between_wc
        [⟨"b", (2 : ℤ), 10, (1, 1), 3, 4⟩] [⟨"a", (5 : ℤ), 8, (9, 9), 6, 7⟩]
        true true true true true).map WCEntry.word =
        ([⟨"a", (5 : ℤ), 8, (9, 9), 6, 7⟩] : List (WCEntry ℤ)).map WCEntry.word ∧
    (transfer_stats_between_wc
        [⟨"b", (2 : ℤ), 10, (1, 1), 3, 4⟩] [⟨"a", (5 : ℤ), 8, (9, 9), 6, 7⟩]
        true true true true true).length =
        ([⟨"a", (5 : ℤ), 8, (9, 9), 6, 7⟩] : List (WCEntry ℤ)).length ∧
    (transfer_heap
        [[⟨"b", (2 : ℤ), 10, (1, 1), 3, 4⟩], [⟨"a", (5 : ℤ), 8, (9, 9), 6, 7⟩]]
        0 1 true true true true true).1.getD 0 [] =
        ([[⟨"b", (2 : ℤ), 10, (1, 1), 3, 4⟩], [⟨"a", (5 : ℤ), 8, (9, 9), 6, 7⟩]] :
          WCHeap ℤ).getD 0 [] :=
  C7_transfer_preserves_structure
    [⟨"b", (2 : ℤ), 10, (1, 1), 3, 4⟩] [⟨"a", (5 : ℤ), 8, (9, 9), 6, 7⟩]
    true true true true true
    [[⟨"b", (2 : ℤ), 10, (1, 1), 3, 4⟩], [⟨"a", (5 : ℤ), 8, (9, 9), 6, 7⟩]]
    0 1 (by decide) (by decide)

/-! ## Claims C3, C8: the font-size scaler -/

theorem wc_dict_fs_after_transfer {F : Type} [Zero F]
    (reference_cloud target_cloud : List (WCEntry F))
    (tpos tor tcol tunk : Bool) :
    wc_dict (fun e => e.fontSize)
        (transfer_stats_between_wc reference_cloud target_cloud
          false tpos tor tcol tunk) =
      wc_dict (fun e => e.fontSize) target_cloud := by
  simp only [wc_dict]
  rw [transfer_map_word_fs]

/-- C3 (counterexample).  The claim that the scaler in log mode "fails
with InvalidScalingDomain whenever targetTotalCount ≤ 1" is false: at
`targetTotalCount = 1` (and `referenceTotalCount = 2`) the call succeeds
and returns a layout, with font size
`1 * log10(1) / log10(2) = 0` (word "a" is absent from the empty
reference, so the reference font size defaults to 1 and all transferred
attributes default to 0).  No validation of either count exists in the
code. -/
theorem C3_no_domain_failure_counterexample :
    scale_wordcloud [⟨"a", 2, 5, (3, 4), 1, 7⟩] [] 1 2 "log" =
      .ok [⟨"a", 0, 0, (0, 0), 0, 0⟩] := by
  rw [scale_wordcloud_log_eq, scale_log_list]
  simp [transfer_stats_between_wc, transfer_entry, wc_dict, dict_get,
    Real.logb_one]

/-- C3 (amended).  In log mode the scaler never fails — there is no
domain validation — and for *all* counts (in the real-number model of the
`np.float64` arithmetic) it returns the transferred layout with every
font size set to `referenceFontSize * log10(targetTotalCount) /
log10(referenceTotalCount)`, where `referenceFontSize` is the reference's
entry for the word when present and `1` otherwise.  In particular at
`targetTotalCount = 1` the result is a layout of zero font sizes, not an
`InvalidScalingDomain` error. -/
theorem C3_log_mode_never_fails (target_cloud reference_cloud : List (WCEntry ℝ))
    (target_wordcount reference_wordcount : ℕ)
    (hnd : (reference_cloud.map WCEntry.word).Nodup) :
    scale_wordcloud target_cloud reference_cloud target_wordcount
        reference_wordcount "log" =
      .ok ((transfer_stats_between_wc reference_cloud target_cloud
          false true true true true).map
        fun e =>
          { e with
            fontSize :=
              ref_lookup reference_cloud (fun x => x.fontSize) e.word 1 *
                Real.logb 10 target_wordcount /
                Real.logb 10 reference_wordcount }) := by
  rw [scale_wordcloud_log_eq, scale_log_list]
  congr 1
  refine List.map_congr_left fun e _ => ?_
  rw [dict_get_eq_ref_lookup _ _ _ _ hnd]

/-- Witness for C3 (amended) at a one-word reference and target,
`targetTotalCount = 4`, `referenceTotalCount = 7`. -/
theorem C3_log_mode_never_fails_witness :
    scale_wordcloud [⟨"a", 9, 8, (1, 1), 2, 3⟩] [⟨"a", 2, 5, (3, 4), 1, 7⟩]
        4 7 "log" =
      .ok ((transfer_stats_between_wc [⟨"a", 2, 5, (3, 4), 1, 7⟩]
          [⟨"a", 9, 8, (1, 1), 2, 3⟩] false true true true true).map
        fun e =>
          { e with
            fontSize :=
              ref_lookup [⟨"a", 2, 5, (3, 4), 1, 7⟩] (fun x => x.fontSize) e.word 1 *
                Real.logb 10 (4 : ℕ) / Real.logb 10 (7 : ℕ) }) :=
  C3_log_mode_never_fails [⟨"a", 9, 8, (1, 1), 2, 3⟩] [⟨"a", 2, 5, (3, 4), 1, 7⟩]
    4 7 (by decide)

/-- C8 (confirmed).  Scaling a layout against itself in log mode with any
total count `c > 1` succeeds and leaves every entry's font size
unchanged: the ratio `log10(c)/log10(c)` is 1, and each word looks up its
own font size in the reference (one entry per word). -/
theorem C8_self_scaling_identity (L : List (WCEntry ℝ)) (c : ℕ) (hc : 1 < c)
    (hnd : (L.map WCEntry.word).Nodup) :
    (scale_wordcloud L L c c "log").map (List.map WCEntry.fontSize) =
      .ok (L.map WCEntry.fontSize) := by
  rw [scale_wordcloud_log_eq]
  show Except.ok ((scale_log_list L L c c).map WCEntry.fontSize) =
    Except.ok (L.map WCEntry.fontSize)
  congr 1
  have hlogb : Real.logb 10 c ≠ 0 :=
    ne_of_gt (Real.logb_pos (by norm_num) (by exact_mod_cast hc))
  rw [scale_log_list, List.map_map]
  simp only [Function.comp_def]
  have hwords : ∀ g : String → ℝ,
      (transfer_stats_between_wc L L false true true true true).map
          (fun e => g e.word) = L.map fun e => g e.word := by
    intro g
    have h1 : (transfer_stats_between_wc L L false true true true true).map
        (fun e => g e.word) =
        ((transfer_stats_between_wc L L false true true true true).map
          WCEntry.word).map g := by
      rw [List.map_map]
      rfl
    rw [h1, transfer_map_word, List.map_map]
    rfl
  rw [hwords fun w =>
    dict_get (wc_dict (fun e' => e'.fontSize) L) w 1 * Real.logb 10 c /
      Real.logb 10 c]
  refine List.map_congr_left fun e he => ?_
  have hd : dict_get (wc_dict (fun e' => e'.fontSize) L) e.word 1 = e.fontSize := by
    rw [dict_get_eq_ref_lookup _ _ _ _ hnd, ref_lookup, find?_self_of_nodup e L hnd he]
  rw [hd, mul_div_assoc, div_self hlogb, mul_one]

/-- Witness for C8: a one-word layout scaled against itself with total
count 100 keeps its font size. -/
theorem C8_self_scaling_identity_witness :
    (scale_wordcloud [⟨"a", 2, 5, (3, 4), 1, 7⟩] [⟨"a", 2, 5, (3, 4), 1, 7⟩]
        100 100 "log").map (List.map WCEntry.fontSize) =
      .ok (([⟨"a", 2, 5, (3, 4), 1, 7⟩] : List (WCEntry ℝ)).map WCEntry.fontSize) :=
  C8_self_scaling_identity [⟨"a", 2, 5, (3, 4), 1, 7⟩] 100 (by norm_num) (by decide)

/-! ## Claim C10: in-place mutation of the target -/

theorem scale_heap_log_eq (h : WCHeap ℝ) (tgtA refA : ℕ)
    (target_wordcount reference_wordcount : ℕ) (htgt : tgtA < h.length) :
    scale_heap h tgtA refA target_wordcount reference_wordcount "log" =
      .ok (h.set tgtA (scale_log_list (h.getD tgtA []) (h.getD refA [])
        target_wordcount reference_wordcount), tgtA) := by
  simp only [scale_heap]
  rw [transfer_heap_eq h refA tgtA _ _ _ _ _ htgt]
  have hcur : (h.set tgtA (transfer_stats_between_wc (h.getD refA [])
      (h.getD tgtA []) false true true true true)).getD tgtA [] =
      transfer_stats_between_wc (h.getD refA []) (h.getD tgtA [])
        false true true true true :=
    heap_getD_set_self h tgtA _ htgt
  have hdict : wc_dict (fun e => e.fontSize)
      ((h.set tgtA (transfer_stats_between_wc (h.getD refA [])
        (h.getD tgtA []) false true true true true)).getD refA []) =
      wc_dict (fun e => e.fontSize) (h.getD refA []) := by
    by_cases hab : tgtA = refA
    · subst hab
      rw [hcur, wc_dict_fs_after_transfer]
    · rw [heap_getD_set_ne h tgtA refA _ hab]
  rw [hdict, hcur]
  rw [scale_heap_loop_log_eq _ target_wordcount reference_wordcount tgtA _ 0 _
    (by simpa using htgt) (by rw [hcur]; omega)]
  rw [hcur, List.take_zero, List.drop_zero, List.nil_append, List.set_set]
  rw [scale_log_list]

/-- C10 (confirmed, implicit claim).  Both operations mutate the target
layout in place and return the very target object they were handed: on
the heap model, `transfer_stats_between_wc` (whose loop writes one entry
index at a time in ascending order, cf. `transfer_heap_loop`) returns the
target's own address together with a heap that differs only at that
address, which now holds the transferred layout; and `scale_wordcloud` in
log mode likewise returns the target's address with only that address
rewritten to the scaled layout.  The reference address (and every other
address) is never written. -/
theorem C10_inplace_target_mutation {F : Type} [Zero F]
    (hF : WCHeap F) (refA tgtA : ℕ)
    (transfer_fontsize transfer_pos transfer_orientation transfer_color
      transfer_unk : Bool)
    (htgtF : tgtA < hF.length)
    (hR : WCHeap ℝ) (refB tgtB : ℕ)
    (target_wordcount reference_wordcount : ℕ) (htgtR : tgtB < hR.length) :
    transfer_heap hF refA tgtA transfer_fontsize transfer_pos
        transfer_orientation transfer_color transfer_unk =
      (hF.set tgtA (transfer_stats_between_wc (hF.getD refA []) (hF.getD tgtA [])
        transfer_fontsize transfer_pos transfer_orientation transfer_color
        transfer_unk), tgtA) ∧
    scale_heap hR tgtB refB target_wordcount reference_wordcount "log" =
      .ok (hR.set tgtB (scale_log_list (hR.getD tgtB []) (hR.getD refB [])
        target_wordcount reference_wordcount), tgtB) :=
  ⟨transfer_heap_eq hF refA tgtA _ _ _ _ _ htgtF,
    scale_heap_log_eq hR tgtB refB target_wordcount reference_wordcount htgtR⟩

/-- Witness for C10: a two-layout heap (reference at address 0, target at
address 1) for the transfer over `F = ℤ`, and a two-layout heap over `ℝ`
for the scaler with counts 10 and 100. -/
theorem C10_inplace_target_mutation_witness :
    transfer_heap ([[⟨"b", (2 : ℤ), 10, (1, 1), 3, 4⟩],
        [⟨"a", (5 : ℤ), 8, (9, 9), 6, 7⟩]] : WCHeap ℤ) 0 1
        true true false false true =
      (([[⟨"b", (2 : ℤ), 10, (1, 1), 3, 4⟩],
        [⟨"a", (5 : ℤ), 8, (9, 9), 6, 7⟩]] : WCHeap ℤ).set 1
        (transfer_stats_between_wc
          (([[⟨"b", (2 : ℤ), 10, (1, 1), 3, 4⟩],
            [⟨"a", (5 : ℤ), 8, (9, 9), 6, 7⟩]] : WCHeap ℤ).getD 0 [])
          (([[⟨"b", (2 : ℤ), 10, (1, 1), 3, 4⟩],
            [⟨"a", (5 : ℤ), 8, (9, 9), 6, 7⟩]] : WCHeap ℤ).getD 1 [])
          true true false false true), 1) ∧
    scale_heap ([[⟨"b", 2, 10, (1, 1), 3, 4⟩],
        [⟨"a", 5, 8, (9, 9), 6, 7⟩]] : WCHeap ℝ) 1 0 10 100 "log" =
      .ok (([[⟨"b", 2, 10, (1, 1), 3, 4⟩],
        [⟨"a", 5, 8, (9, 9), 6, 7⟩]] : WCHeap ℝ).set 1
        (scale_log_list
          (([[⟨"b", 2, 10, (1, 1), 3, 4⟩],
            [⟨"a", 5, 8, (9, 9), 6, 7⟩]] : WCHeap ℝ).getD 1 [])
          (([[⟨"b", 2, 10, (1, 1), 3, 4⟩],
            [⟨"a", 5, 8, (9, 9), 6, 7⟩]] : WCHeap ℝ).getD 0 [])
          10 100), 1) :=
  C10_inplace_target_mutation
    [[⟨"b", (2 : ℤ), 10, (1, 1), 3, 4⟩], [⟨"a", (5 : ℤ), 8, (9, 9), 6, 7⟩]]
    0 1 true true false false true (by decide)
    [[⟨"b", 2, 10, (1, 1), 3, 4⟩], [⟨"a", 5, 8, (9, 9), 6, 7⟩]]
    0 1 10 100 (by decide)

/-! ## Lemmas about the canvas fold -/

theorem cell_index_eq_of_overlap (bh : ℕ) (a b r : ℕ) (hr : r < bh)
    (h1 : b * bh ≤ a * bh + r) (h2 : a * bh + r < b * bh + bh) : a = b := by
  rcases lt_trichotomy a b with h | h | h
  · exfalso
    have hstep : (a + 1) * bh ≤ b * bh := Nat.mul_le_mul_right _ (by omega)
    have hexp : (a + 1) * bh = a * bh + bh := by ring
    omega
  · exact h
  · exfalso
    have hstep : (b + 1) * bh ≤ a * bh := Nat.mul_le_mul_right _ (by omega)
    have hexp : (b + 1) * bh = b * bh + bh := by ring
    omega

theorem foldl_write_block_shape (blocks : ℕ → Img) (bh bw ncols : ℕ) :
    ∀ (L : List ℕ) (canvas0 : Img),
      ((L.foldl (fun canvas k' =>
          write_block canvas (k' / ncols * bh) (k' % ncols * bw) bh bw (blocks k'))
        canvas0).h = canvas0.h ∧
      (L.foldl (fun canvas k' =>
          write_block canvas (k' / ncols * bh) (k' % ncols * bw) bh bw (blocks k'))
        canvas0).w = canvas0.w ∧
      (L.foldl (fun canvas k' =>
          write_block canvas (k' / ncols * bh) (k' % ncols * bw) bh bw (blocks k'))
        canvas0).d = canvas0.d) := by
  intro L
  induction L with
  | nil => intro canvas0; exact ⟨rfl, rfl, rfl⟩
  | cons x L ih =>
    intro canvas0
    rw [List.foldl_cons]
    exact ih _

theorem foldl_write_block_px (blocks : ℕ → Img) (canvas0 : Img) (bh bw ncols : ℕ) :
    ∀ (N k r c ch : ℕ), k < N → r < bh → c < bw →
      ((List.range N).foldl
        (fun canvas k' =>
          write_block canvas (k' / ncols * bh) (k' % ncols * bw) bh bw (blocks k'))
        canvas0).px (k / ncols * bh + r) (k % ncols * bw + c) ch =
      (blocks k).px r c ch % 256 := by
  intro N
  induction N with
  | zero =>
    intro k r c ch hk _ _
    omega
  | succ N ih =>
    intro k r c ch hk hr hc
    rw [List.range_succ, List.foldl_append, List.foldl_cons, List.foldl_nil]
    simp only [write_block]
    by_cases hkN : k = N
    · subst hkN
      rw [if_pos ⟨by omega, by omega, by omega, by omega⟩]
      have e1 : k / ncols * bh + r - k / ncols * bh = r := by omega
      have e2 : k % ncols * bw + c - k % ncols * bw = c := by omega
      rw [e1, e2]
    · rw [if_neg ?_]
      · exact ih k r c ch (by omega) hr hc
      · rintro ⟨h1, h2, h3, h4⟩
        apply hkN
        have hrow := cell_index_eq_of_overlap bh (k / ncols) (N / ncols) r hr h1 h2
        have hcol := cell_index_eq_of_overlap bw (k % ncols) (N % ncols) c hc h3 h4
        calc k = ncols * (k / ncols) + k % ncols := (Nat.div_add_mod k ncols).symm
          _ = ncols * (N / ncols) + N % ncols := by rw [hrow, hcol]
          _ = N := Nat.div_add_mod N ncols

theorem arrange_pages_horizontal_shape (pages : List Img) (num_rows num_cols : ℕ)
    (background_color : ℕ → ℤ) :
    (arrange_pages_horizontal pages num_rows num_cols background_color).h =
      num_rows * (add_border (pages.headD (np_full 0 0 0 fun _ => 0)) 1).h ∧
    (arrange_pages_horizontal pages num_rows num_cols background_color).w =
      num_cols * (add_border (pages.headD (np_full 0 0 0 fun _ => 0)) 1).w ∧
    (arrange_pages_horizontal pages num_rows num_cols background_color).d = 3 := by
  simp only [arrange_pages_horizontal]
  exact foldl_write_block_shape _ _ _ _ _ _

theorem arrange_pages_horizontal_px (pages : List Img) (num_rows num_cols : ℕ)
    (background_color : ℕ → ℤ) (k r c ch : ℕ) (hk : k < num_rows * num_cols)
    (hr : r < (add_border (pages.headD (np_full 0 0 0 fun _ => 0)) 1).h)
    (hc : c < (add_border (pages.headD (np_full 0 0 0 fun _ => 0)) 1).w) :
    (arrange_pages_horizontal pages num_rows num_cols background_color).px
        (k / num_cols * (add_border (pages.headD (np_full 0 0 0 fun _ => 0)) 1).h + r)
        (k % num_cols * (add_border (pages.headD (np_full 0 0 0 fun _ => 0)) 1).w + c)
        ch =
      (match (pages.map some ++
          List.replicate (num_rows * num_cols - pages.length) none).getD k none with
        | some page => add_border_c page 1 fun _ => 0
        | none =>
          np_full (add_border (pages.headD (np_full 0 0 0 fun _ => 0)) 1).h
            (add_border (pages.headD (np_full 0 0 0 fun _ => 0)) 1).w 3
            background_color).px r c ch % 256 := by
  simp only [arrange_pages_horizontal]
  exact foldl_write_block_px _ _ _ _ _ (num_rows * num_cols) k r c ch hk hr hc

/-! ## Claim C2: the page-grid collator -/

/-- C2 (confirmed).  For every non-empty list of byte-valued tiles of a
common size `th × tw × 3`, and every `rows`, `cols` with
`rows * cols ≥ len(tiles)`, the composite canvas has exact shape
`(rows * (th+2), cols * (tw+2), 3)` (a bordered tile is 2 pixels larger
on each axis); the pixel at offset `(r, c, ch)` inside row-major cell `k`
equals the black-bordered tile `k` when `k < len(tiles)`, and equals the
background color (byte-valued) in each of the `rows*cols - len(tiles)`
padding cells after the last tile. -/
theorem C2_composite_grid_semantics
    (pages : List Img) (num_rows num_cols : ℕ) (background_color : ℕ → ℤ)
    (th tw : ℕ) (k r c ch : ℕ)
    (hne : pages ≠ [])
    (hdim : ∀ p ∈ pages, p.h = th ∧ p.w = tw)
    (hbyte : ∀ p ∈ pages, ∀ r' c' ch', r' < th → c' < tw → ch' < 3 →
      0 ≤ p.px r' c' ch' ∧ p.px r' c' ch' < 256)
    (hbg : ∀ ch' < 3, 0 ≤ background_color ch' ∧ background_color ch' < 256)
    (hcap : pages.length ≤ num_rows * num_cols)
    (hk : k < num_rows * num_cols)
    (hr : r < th + 2) (hc : c < tw + 2) (hch : ch < 3) :
    (arrange_pages_horizontal pages num_rows num_cols background_color).h =
        num_rows * (th + 2) ∧
    (arrange_pages_horizontal pages num_rows num_cols background_color).w =
        num_cols * (tw + 2) ∧
    (arrange_pages_horizontal pages num_rows num_cols background_color).d = 3 ∧
    (arrange_pages_horizontal pages num_rows num_cols background_color).px
        (k / num_cols * (th + 2) + r) (k % num_cols * (tw + 2) + c) ch =
      (if k < pages.length then
        (add_border_c (pages.getD k (np_full 0 0 0 fun _ => 0)) 1 fun _ => 0).px r c ch
      else background_color ch) := by
  match pages, hne with
  | p0 :: rest, _ =>
    have hmem0 : p0 ∈ p0 :: rest := List.mem_cons_self p0 rest
    have hbh : (add_border ((p0 :: rest).headD (np_full 0 0 0 fun _ => 0)) 1).h =
        th + 2 := by
      have h0 := (hdim p0 hmem0).1
      simp only [List.headD_cons, add_border]
      omega
    have hbw : (add_border ((p0 :: rest).headD (np_full 0 0 0 fun _ => 0)) 1).w =
        tw + 2 := by
      have h0 := (hdim p0 hmem0).2
      simp only [List.headD_cons, add_border]
      omega
    obtain ⟨hsh, hsw, hsd⟩ :=
      arrange_pages_horizontal_shape (p0 :: rest) num_rows num_cols background_color
    refine ⟨by rw [hsh, hbh], by rw [hsw, hbw], hsd, ?_⟩
    have key := arrange_pages_horizontal_px (p0 :: rest) num_rows num_cols
      background_color k r c ch hk (by omega) (by omega)
    rw [hbh, hbw] at key
    rw [key]
    by_cases hkp : k < (p0 :: rest).length
    · have hgetd : ((p0 :: rest).map some ++
          List.replicate (num_rows * num_cols - (p0 :: rest).length) none).getD
          k none = some (p0 :: rest)[k] := by
        rw [List.getD_eq_getElem?_getD, List.getElem?_append]
        rw [if_pos (by simpa using hkp)]
        rw [List.getElem?_map, List.getElem?_eq_getElem hkp, Option.map_some']
        rfl
      rw [hgetd]
      have hgetd2 : (p0 :: rest).getD k (np_full 0 0 0 fun _ => 0) =
          (p0 :: rest)[k] := by
        rw [List.getD_eq_getElem?_getD, List.getElem?_eq_getElem hkp,
          Option.getD_some]
      rw [if_pos hkp, hgetd2]
      have hmemk : (p0 :: rest)[k] ∈ p0 :: rest := List.getElem_mem hkp
      obtain ⟨hkh, hkw⟩ := hdim _ hmemk
      have hbound : 0 ≤ (add_border_c (p0 :: rest)[k] 1 fun _ => 0).px r c ch ∧
          (add_border_c (p0 :: rest)[k] 1 fun _ => 0).px r c ch < 256 := by
        simp only [add_border_c]
        split
        · next hreg =>
          exact hbyte _ hmemk (r - 1) (c - 1) ch (by omega) (by omega) hch
        · exact ⟨le_refl 0, by norm_num⟩
      exact Int.emod_eq_of_lt hbound.1 hbound.2
    · have hgetd : ((p0 :: rest).map some ++
          List.replicate (num_rows * num_cols - (p0 :: rest).length) none).getD
          k none = none := by
        rw [List.getD_eq_getElem?_getD, List.getElem?_append]
        rw [if_neg (by simpa using hkp)]
        have hrep : k - ((p0 :: rest).map some).length <
            num_rows * num_cols - (p0 :: rest).length := by
          simp only [List.length_map]
          omega
        rw [List.getElem?_replicate, if_pos hrep]
        rfl
      rw [hgetd]
      rw [if_neg hkp]
      exact Int.emod_eq_of_lt (hbg ch hch).1 (hbg ch hch).2

/-- Witness for C2: two 1×1×3 tiles (pixel values 7 and 9) in a 1×3 grid
with background 200; the third cell (`k = 2`) is a padding cell and holds
the background color. -/
theorem C2_composite_grid_semantics_witness :
    (arrange_pages_horizontal [⟨1, 1, 3, fun _ _ _ => 7⟩, ⟨1, 1, 3, fun _ _ _ => 9⟩]
        1 3 fun _ => 200).h = 1 * (1 + 2) ∧
    (arrange_pages_horizontal [⟨1, 1, 3, fun _ _ _ => 7⟩, ⟨1, 1, 3, fun _ _ _ => 9⟩]
        1 3 fun _ => 200).w = 3 * (1 + 2) ∧
    (arrange_pages_horizontal [⟨1, 1, 3, fun _ _ _ => 7⟩, ⟨1, 1, 3, fun _ _ _ => 9⟩]
        1 3 fun _ => 200).d = 3 ∧
    (arrange_pages_horizontal [⟨1, 1, 3, fun _ _ _ => 7⟩, ⟨1, 1, 3, fun _ _ _ => 9⟩]
        1 3 fun _ => 200).px (2 / 3 * (1 + 2) + 0) (2 % 3 * (1 + 2) + 0) 0 =
      (if 2 < ([⟨1, 1, 3, fun _ _ _ => 7⟩,
          ⟨1, 1, 3, fun _ _ _ => 9⟩] : List Img).length then
        (add_border_c (([⟨1, 1, 3, fun _ _ _ => 7⟩,
            ⟨1, 1, 3, fun _ _ _ => 9⟩] : List Img).getD 2
          (np_full 0 0 0 fun _ => 0)) 1 fun _ => 0).px 0 0 0
      else (fun _ => (200 : ℤ)) 0) :=
  C2_composite_grid_semantics
    [⟨1, 1, 3, fun _ _ _ => 7⟩, ⟨1, 1, 3, fun _ _ _ => 9⟩] 1 3 (fun _ => 200)
    1 1 2 0 0 0
    (List.cons_ne_nil _ _)
    (by
      intro p hp
      rcases List.mem_cons.mp hp with h | h
      · subst h; exact ⟨rfl, rfl⟩
      · rcases List.mem_cons.mp h with h2 | h2
        · subst h2; exact ⟨rfl, rfl⟩
        · simp at h2)
    (by
      intro p hp r' c' ch' _ _ _
      rcases List.mem_cons.mp hp with h | h
      · subst h; norm_num
      · rcases List.mem_cons.mp h with h2 | h2
        · subst h2; norm_num
        · simp at h2)
    (by intro ch' _; norm_num)
    (by norm_num) (by norm_num) (by norm_num) (by norm_num) (by norm_num)

end EvolutionThesis
